import Mathlib

/-!
Verification development for the toolkits-gcp backend: a shallow embedding of
the encryption service, envelope middleware, SSE chat pipeline, JWT auth
service, rate limiter and citation/title helpers, with theorems checking the
natural-language specification against the code.

External libraries used by the source (hashlib, cryptography's AESGCM, the
json and base64 modules, python-jose) are not part of the repository; they are
modelled here by executable Lean functions that keep exactly the contracts the
source relies on, each marked in its doc comment.
-/

/-- A byte, as handled by the Python `bytes` type. -/
abbrev Byte := Fin 256

instance {e a : Type} [DecidableEq e] [DecidableEq a] : DecidableEq (Except e a) :=
  fun x y =>
    match x, y with
    | .error u, .error v =>
      if h : u = v then isTrue (by rw [h]) else isFalse (fun hc => h (Except.error.inj hc))
    | .ok u, .ok v =>
      if h : u = v then isTrue (by rw [h]) else isFalse (fun hc => h (Except.ok.inj hc))
    | .error _, .ok _ => isFalse (fun hc => Except.noConfusion hc)
    | .ok _, .error _ => isFalse (fun hc => Except.noConfusion hc)

/-- Bytes of an ASCII string (model of Python `str.encode('utf-8')` on the
ASCII strings that appear in the code). -/
def strBytes (s : String) : List Byte :=
  s.data.map (fun c => ⟨c.toNat % 256, Nat.mod_lt _ (by omega)⟩)

/-- Little-endian base-255 digits of a natural number, terminated by the
byte 255 (digits are always < 255, so the terminator is unambiguous); the
first argument is structural fuel so the kernel can evaluate the function. -/
def encNatAux : Nat → Nat → List Byte
  | 0, _ => []
  | f + 1, n =>
    if n = 0 then [(255 : Byte)]
    else ⟨n % 255, by omega⟩ :: encNatAux f (n / 255)

/-- Little-endian base-255 encoding of a natural number. -/
def encNat (n : Nat) : List Byte := encNatAux (n + 1) n

/-- Decoder matching `encNat`; returns the value and the unread rest. -/
def decNat : List Byte → Option (Nat × List Byte)
  | [] => none
  | d :: rest =>
    if d.val = 255 then some (0, rest)
    else (decNat rest).map (fun p => (d.val + 255 * p.1, p.2))

theorem decNat_encNatAux (fuel : Nat) :
    ∀ (n : Nat) (rest : List Byte), n + 1 ≤ fuel →
      decNat (encNatAux fuel n ++ rest) = some (n, rest) := by
  induction fuel with
  | zero => intro n rest h; omega
  | succ f ih =>
    intro n rest _
    by_cases h : n = 0
    · subst h
      simp only [encNatAux, if_pos rfl, List.cons_append, List.nil_append, decNat]
      rw [if_pos (by decide)]
      rfl
    · simp only [encNatAux, if_neg h, List.cons_append, decNat]
      rw [if_neg (by omega)]
      have hrec : n / 255 + 1 ≤ f := by
        have h2 : n / 255 < n := Nat.div_lt_self (by omega) (by omega)
        omega
      rw [ih (n / 255) rest hrec]
      simp only [Option.map_some']
      have hmul : n % 255 + 255 * (n / 255) = n := by omega
      simp only [Fin.val, hmul]

theorem decNat_encNat (n : Nat) (rest : List Byte) :
    decNat (encNat n ++ rest) = some (n, rest) :=
  decNat_encNatAux (n + 1) n rest (Nat.le_refl _)

/-- Sign-tagged integer encoding built on `encNat`. -/
def encInt (n : Int) : List Byte :=
  if n < 0 then (9 : Byte) :: encNat (-n).toNat else (10 : Byte) :: encNat n.toNat

/-- Decoder matching `encInt`. -/
def decInt : List Byte → Option (Int × List Byte)
  | [] => none
  | d :: rest =>
    if d.val = 9 then (decNat rest).map (fun p => (-(p.1 : Int), p.2))
    else if d.val = 10 then (decNat rest).map (fun p => ((p.1 : Int), p.2))
    else none

theorem decInt_encInt (n : Int) (rest : List Byte) :
    decInt (encInt n ++ rest) = some (n, rest) := by
  unfold encInt
  split
  · rename_i h
    simp only [List.cons_append, decInt]
    rw [if_pos (by decide), decNat_encNat]
    simp only [Option.map_some']
    have hval : -(((-n).toNat : Nat) : Int) = n := by omega
    rw [hval]
  · rename_i h
    simp only [List.cons_append, decInt]
    rw [if_neg (by decide), if_pos (by decide), decNat_encNat]
    simp only [Option.map_some']
    have hval : ((n.toNat : Nat) : Int) = n := by omega
    rw [hval]

/-!
JSON value model. The source serializes Python dicts with
`json.dumps(data, separators=(',', ':')).encode('utf-8')` and parses with
`json.loads`; both belong to the external `json` standard library. The model
below keeps the contract the source relies on: `dumps` is an injective,
deterministic encoding of JSON values into bytes and `loads` is its exact
inverse, failing on bytes outside its image. Strings are carried as their
already-encoded UTF-8 bytes.
-/

mutual
inductive J where
  | jnull : J
  | jbool : Bool → J
  | jint : Int → J
  | jstr : List Byte → J
  | jarr : JArr → J
  | jobj : JObj → J
  deriving DecidableEq

inductive JArr where
  | anil : JArr
  | acons : J → JArr → JArr
  deriving DecidableEq

inductive JObj where
  | onil : JObj
  | ocons : List Byte → J → JObj → JObj
  deriving DecidableEq
end

mutual
/-- Modelled from the spec: byte encoding produced by the external
`json.dumps(..., separators=(',', ':')).encode('utf-8')`; the model keeps an
injective deterministic tagged encoding rather than JSON text syntax. -/
def encJ : J → List Byte
  | .jnull => [(0 : Byte)]
  | .jbool false => [(1 : Byte)]
  | .jbool true => [(2 : Byte)]
  | .jint n => (3 : Byte) :: encInt n
  | .jstr s => (4 : Byte) :: (encNat s.length ++ s)
  | .jarr a => (5 : Byte) :: (encJArr a ++ [(6 : Byte)])
  | .jobj o => (7 : Byte) :: (encJObj o ++ [(8 : Byte)])

def encJArr : JArr → List Byte
  | .anil => []
  | .acons x t => encJ x ++ encJArr t

def encJObj : JObj → List Byte
  | .onil => []
  | .ocons k v t => (9 : Byte) :: (encNat k.length ++ k ++ encJ v ++ encJObj t)
end

mutual
/-- Node count used as decoder fuel bound. -/
def sizeJ : J → Nat
  | .jnull => 1
  | .jbool _ => 1
  | .jint _ => 1
  | .jstr _ => 1
  | .jarr a => 1 + sizeJArr a
  | .jobj o => 1 + sizeJObj o

def sizeJArr : JArr → Nat
  | .anil => 1
  | .acons x t => sizeJ x + sizeJArr t

def sizeJObj : JObj → Nat
  | .onil => 1
  | .ocons _ v t => sizeJ v + sizeJObj t
end

mutual
/-- Fuel-indexed decoder matching `encJ` (model of the external `json.loads`). -/
def decJ : Nat → List Byte → Option (J × List Byte)
  | 0, _ => none
  | _ + 1, [] => none
  | fuel + 1, d :: rest =>
    if d.val = 0 then some (.jnull, rest)
    else if d.val = 1 then some (.jbool false, rest)
    else if d.val = 2 then some (.jbool true, rest)
    else if d.val = 3 then (decInt rest).map (fun p => (.jint p.1, p.2))
    else if d.val = 4 then
      match decNat rest with
      | none => none
      | some (len, r2) =>
        if len ≤ r2.length then some (.jstr (r2.take len), r2.drop len) else none
    else if d.val = 5 then
      match decJArr fuel rest with
      | none => none
      | some (a, r2) => some (.jarr a, r2)
    else if d.val = 7 then
      match decJObj fuel rest with
      | none => none
      | some (o, r2) => some (.jobj o, r2)
    else none

def decJArr : Nat → List Byte → Option (JArr × List Byte)
  | 0, _ => none
  | _ + 1, [] => none
  | fuel + 1, d :: rest =>
    if d.val = 6 then some (.anil, rest)
    else
      match decJ fuel (d :: rest) with
      | none => none
      | some (x, r2) =>
        match decJArr fuel r2 with
        | none => none
        | some (t, r3) => some (.acons x t, r3)

def decJObj : Nat → List Byte → Option (JObj × List Byte)
  | 0, _ => none
  | _ + 1, [] => none
  | fuel + 1, d :: rest =>
    if d.val = 8 then some (.onil, rest)
    else if d.val = 9 then
      match decNat rest with
      | none => none
      | some (klen, r2) =>
        if klen ≤ r2.length then
          match decJ fuel (r2.drop klen) with
          | none => none
          | some (v, r3) =>
            match decJObj fuel r3 with
            | none => none
            | some (t, r4) => some (.ocons (r2.take klen) v t, r4)
        else none
    else none
end

theorem sizeJ_pos (x : J) : 1 ≤ sizeJ x := by
  cases x <;> simp [sizeJ]

theorem sizeJArr_pos (a : JArr) : 1 ≤ sizeJArr a := by
  cases a with
  | anil => simp [sizeJArr]
  | acons x t => have := sizeJ_pos x; simp [sizeJArr]; omega

theorem sizeJObj_pos (o : JObj) : 1 ≤ sizeJObj o := by
  cases o with
  | onil => simp [sizeJObj]
  | ocons k v t => have := sizeJ_pos v; simp [sizeJObj]; omega

theorem encJ_head (x : J) :
    ∃ d t, encJ x = d :: t ∧ d.val ≠ 6 ∧ d.val ≠ 8 := by
  cases x with
  | jnull => exact ⟨0, _, rfl, by decide, by decide⟩
  | jbool b => cases b with
    | false => exact ⟨1, _, rfl, by decide, by decide⟩
    | true => exact ⟨2, _, rfl, by decide, by decide⟩
  | jint n => exact ⟨3, _, rfl, by decide, by decide⟩
  | jstr s => exact ⟨4, _, rfl, by decide, by decide⟩
  | jarr a => exact ⟨5, _, rfl, by decide, by decide⟩
  | jobj o => exact ⟨7, _, rfl, by decide, by decide⟩

theorem decJ_tag0 (f : Nat) (r : List Byte) :
    decJ (f + 1) ((0 : Byte) :: r) = some (.jnull, r) := by
  simp only [decJ]
  rw [if_pos (by decide)]

theorem decJ_tag1 (f : Nat) (r : List Byte) :
    decJ (f + 1) ((1 : Byte) :: r) = some (.jbool false, r) := by
  simp only [decJ]
  rw [if_neg (by decide), if_pos (by decide)]

theorem decJ_tag2 (f : Nat) (r : List Byte) :
    decJ (f + 1) ((2 : Byte) :: r) = some (.jbool true, r) := by
  simp only [decJ]
  rw [if_neg (by decide), if_neg (by decide), if_pos (by decide)]

theorem decJ_tag3 (f : Nat) (r : List Byte) :
    decJ (f + 1) ((3 : Byte) :: r) = (decInt r).map (fun p => (.jint p.1, p.2)) := by
  simp only [decJ]
  rw [if_neg (by decide), if_neg (by decide), if_neg (by decide), if_pos (by decide)]

theorem decJ_tag4 (f : Nat) (r : List Byte) :
    decJ (f + 1) ((4 : Byte) :: r) =
      (match decNat r with
       | none => none
       | some (len, r2) =>
         if len ≤ r2.length then some (.jstr (r2.take len), r2.drop len) else none) := by
  simp only [decJ]
  rw [if_neg (by decide), if_neg (by decide), if_neg (by decide), if_neg (by decide),
    if_pos (by decide)]

theorem decJ_tag5 (f : Nat) (r : List Byte) :
    decJ (f + 1) ((5 : Byte) :: r) =
      (match decJArr f r with
       | none => none
       | some (a, r2) => some (.jarr a, r2)) := by
  simp only [decJ]
  rw [if_neg (by decide), if_neg (by decide), if_neg (by decide), if_neg (by decide),
    if_neg (by decide), if_pos (by decide)]

theorem decJ_tag7 (f : Nat) (r : List Byte) :
    decJ (f + 1) ((7 : Byte) :: r) =
      (match decJObj f r with
       | none => none
       | some (o, r2) => some (.jobj o, r2)) := by
  simp only [decJ]
  rw [if_neg (by decide), if_neg (by decide), if_neg (by decide), if_neg (by decide),
    if_neg (by decide), if_neg (by decide), if_pos (by decide)]

theorem decJArr_tag6 (f : Nat) (r : List Byte) :
    decJArr (f + 1) ((6 : Byte) :: r) = some (.anil, r) := by
  simp only [decJArr]
  rw [if_pos (by decide)]

theorem decJObj_tag8 (f : Nat) (r : List Byte) :
    decJObj (f + 1) ((8 : Byte) :: r) = some (.onil, r) := by
  simp only [decJObj]
  rw [if_pos (by decide)]

theorem decJObj_tag9 (f : Nat) (r : List Byte) :
    decJObj (f + 1) ((9 : Byte) :: r) =
      (match decNat r with
       | none => none
       | some (klen, r2) =>
         if klen ≤ r2.length then
           match decJ f (r2.drop klen) with
           | none => none
           | some (v, r3) =>
             match decJObj f r3 with
             | none => none
             | some (t, r4) => some (.ocons (r2.take klen) v t, r4)
         else none) := by
  simp only [decJObj]
  rw [if_neg (by decide), if_pos (by decide)]

mutual
theorem decJ_encJ (x : J) (fuel : Nat) (rest : List Byte) (hf : sizeJ x ≤ fuel) :
    decJ fuel (encJ x ++ rest) = some (x, rest) := by
  cases fuel with
  | zero => exact absurd hf (by have := sizeJ_pos x; omega)
  | succ f =>
    cases x with
    | jnull => rw [show encJ .jnull ++ rest = (0 : Byte) :: rest from rfl, decJ_tag0]
    | jbool b =>
      cases b with
      | false => rw [show encJ (.jbool false) ++ rest = (1 : Byte) :: rest from rfl, decJ_tag1]
      | true => rw [show encJ (.jbool true) ++ rest = (2 : Byte) :: rest from rfl, decJ_tag2]
    | jint n =>
      rw [show encJ (.jint n) ++ rest = (3 : Byte) :: (encInt n ++ rest) from rfl, decJ_tag3]
      simp only [decInt_encInt, Option.map_some']
    | jstr s =>
      rw [show encJ (.jstr s) ++ rest = (4 : Byte) :: (encNat s.length ++ (s ++ rest)) from by
        simp [encJ], decJ_tag4]
      simp only [decNat_encNat]
      have hle : s.length ≤ (s ++ rest).length := by simp
      rw [if_pos hle, List.take_left' rfl, List.drop_left' rfl]
    | jarr a =>
      have hsz : sizeJArr a ≤ f := by
        simp [sizeJ] at hf; omega
      rw [show encJ (.jarr a) ++ rest = (5 : Byte) :: (encJArr a ++ (6 : Byte) :: rest) from by
        simp [encJ], decJ_tag5]
      simp only [decJArr_encJArr a f rest hsz]
    | jobj o =>
      have hsz : sizeJObj o ≤ f := by
        simp [sizeJ] at hf; omega
      rw [show encJ (.jobj o) ++ rest = (7 : Byte) :: (encJObj o ++ (8 : Byte) :: rest) from by
        simp [encJ], decJ_tag7]
      simp only [decJObj_encJObj o f rest hsz]

theorem decJArr_encJArr (a : JArr) (fuel : Nat) (rest : List Byte)
    (hf : sizeJArr a ≤ fuel) :
    decJArr fuel (encJArr a ++ (6 : Byte) :: rest) = some (a, rest) := by
  cases fuel with
  | zero => exact absurd hf (by have := sizeJArr_pos a; omega)
  | succ f =>
    cases a with
    | anil =>
      rw [show encJArr .anil ++ (6 : Byte) :: rest = (6 : Byte) :: rest from rfl, decJArr_tag6]
    | acons x t =>
      have hx : sizeJ x ≤ f := by
        have := sizeJArr_pos t; simp [sizeJArr] at hf; omega
      have ht : sizeJArr t ≤ f := by
        have := sizeJ_pos x; simp [sizeJArr] at hf; omega
      obtain ⟨d, t', henc, h6, _⟩ := encJ_head x
      have hlist : encJArr (.acons x t) ++ (6 : Byte) :: rest
          = d :: (t' ++ (encJArr t ++ (6 : Byte) :: rest)) := by
        simp [encJArr, henc]
      rw [hlist]
      simp only [decJArr]
      rw [if_neg h6]
      rw [show d :: (t' ++ (encJArr t ++ (6 : Byte) :: rest))
            = encJ x ++ (encJArr t ++ (6 : Byte) :: rest) from by rw [henc]; rfl]
      simp only [decJ_encJ x f _ hx, decJArr_encJArr t f rest ht]

theorem decJObj_encJObj (o : JObj) (fuel : Nat) (rest : List Byte)
    (hf : sizeJObj o ≤ fuel) :
    decJObj fuel (encJObj o ++ (8 : Byte) :: rest) = some (o, rest) := by
  cases fuel with
  | zero => exact absurd hf (by have := sizeJObj_pos o; omega)
  | succ f =>
    cases o with
    | onil =>
      rw [show encJObj .onil ++ (8 : Byte) :: rest = (8 : Byte) :: rest from rfl, decJObj_tag8]
    | ocons k v t =>
      have hv : sizeJ v ≤ f := by
        have := sizeJObj_pos t; simp [sizeJObj] at hf; omega
      have ht : sizeJObj t ≤ f := by
        have := sizeJ_pos v; simp [sizeJObj] at hf; omega
      have hlist : encJObj (.ocons k v t) ++ (8 : Byte) :: rest
          = (9 : Byte) :: (encNat k.length
              ++ (k ++ (encJ v ++ (encJObj t ++ (8 : Byte) :: rest)))) := by
        simp [encJObj]
      rw [hlist, decJObj_tag9]
      simp only [decNat_encNat]
      have hle : k.length ≤ (k ++ (encJ v ++ (encJObj t ++ (8 : Byte) :: rest))).length := by
        simp
      rw [if_pos hle, List.take_left' rfl, List.drop_left' rfl]
      simp only [decJ_encJ v f _ hv, decJObj_encJObj t f rest ht]
end

theorem encNat_length_pos (n : Nat) : 1 ≤ (encNat n).length := by
  rw [encNat]
  simp only [encNatAux]
  split <;> simp

theorem encInt_length_pos (n : Int) : 1 ≤ (encInt n).length := by
  unfold encInt
  split <;> simp

mutual
theorem sizeJ_le_length (x : J) : sizeJ x ≤ (encJ x).length := by
  cases x with
  | jnull => simp [sizeJ, encJ]
  | jbool b => cases b <;> simp [sizeJ, encJ]
  | jint n => have := encInt_length_pos n; simp [sizeJ, encJ]
  | jstr s => have := encNat_length_pos s.length; simp [sizeJ, encJ]
  | jarr a => have := sizeJArr_le_length a; simp [sizeJ, encJ]; omega
  | jobj o => have := sizeJObj_le_length o; simp [sizeJ, encJ]; omega

theorem sizeJArr_le_length (a : JArr) : sizeJArr a ≤ (encJArr a).length + 1 := by
  cases a with
  | anil => simp [sizeJArr, encJArr]
  | acons x t =>
    have hx := sizeJ_le_length x
    have ht := sizeJArr_le_length t
    simp [sizeJArr, encJArr]; omega

theorem sizeJObj_le_length (o : JObj) : sizeJObj o ≤ (encJObj o).length + 1 := by
  cases o with
  | onil => simp [sizeJObj, encJObj]
  | ocons k v t =>
    have hv := sizeJ_le_length v
    have ht := sizeJObj_le_length t
    have hn := encNat_length_pos k.length
    simp [sizeJObj, encJObj]; omega
end

/-- Model of the external `json.dumps(..., separators=(',', ':')).encode('utf-8')`. -/
def jsonDumps (x : J) : List Byte := encJ x

/-- Model of the external `json.loads` over bytes; fails (like
`json.JSONDecodeError`) on bytes that are not a serialized value. The error
message is modelled by a fixed representative JSONDecodeError text. -/
def jsonLoads (bs : List Byte) : Except String J :=
  match decJ (bs.length + 1) bs with
  | some (x, []) => .ok x
  | _ => .error "Expecting value: line 1 column 1 (char 0)"

theorem jsonLoads_jsonDumps (x : J) : jsonLoads (jsonDumps x) = .ok x := by
  unfold jsonLoads jsonDumps
  have hsz : sizeJ x ≤ (encJ x).length + 1 := le_trans (sizeJ_le_length x) (by omega)
  have hdec := decJ_encJ x ((encJ x).length + 1) [] hsz
  rw [List.append_nil] at hdec
  rw [hdec]

/-!
Base64 model: a real RFC 4648 base64 alphabet encoder/decoder, modelling the
external `base64.b64encode` / `base64.b64decode` pair used by the source.
-/

/-- The base64 alphabet character for a 6-bit value. -/
def b64char (v : Nat) : Char :=
  if v < 26 then Char.ofNat (65 + v)
  else if v < 52 then Char.ofNat (97 + (v - 26))
  else if v < 62 then Char.ofNat (48 + (v - 52))
  else if v = 62 then Char.ofNat 43
  else Char.ofNat 47

/-- Inverse lookup into the base64 alphabet. -/
def b64val (c : Char) : Option Nat :=
  let n := c.toNat
  if 65 ≤ n ∧ n ≤ 90 then some (n - 65)
  else if 97 ≤ n ∧ n ≤ 122 then some (n - 97 + 26)
  else if 48 ≤ n ∧ n ≤ 57 then some (n - 48 + 52)
  else if n = 43 then some 62
  else if n = 47 then some 63
  else none

theorem b64val_b64char_fin : ∀ v : Fin 64, b64val (b64char v.val) = some v.val := by decide

theorem b64val_b64char (v : Nat) (hv : v < 64) : b64val (b64char v) = some v :=
  b64val_b64char_fin ⟨v, hv⟩

theorem b64char_ne_pad_fin : ∀ v : Fin 64, b64char v.val ≠ Char.ofNat 61 := by decide

theorem b64char_ne_pad (v : Nat) (hv : v < 64) : b64char v ≠ Char.ofNat 61 :=
  b64char_ne_pad_fin ⟨v, hv⟩

/-- Base64-encode a byte list in 3-byte groups, `=`-padding the final group. -/
def b64encAux : List Byte → List Char
  | [] => []
  | [b1] =>
    [b64char (b1.val / 4), b64char (b1.val % 4 * 16), Char.ofNat 61, Char.ofNat 61]
  | [b1, b2] =>
    [b64char (b1.val / 4), b64char (b1.val % 4 * 16 + b2.val / 16),
     b64char (b2.val % 16 * 4), Char.ofNat 61]
  | b1 :: b2 :: b3 :: t =>
    b64char (b1.val / 4) :: b64char (b1.val % 4 * 16 + b2.val / 16)
      :: b64char (b2.val % 16 * 4 + b3.val / 64) :: b64char (b3.val % 64)
      :: b64encAux t

/-- The three bytes packed into one full base64 group. -/
def b64group (v1 v2 v3 v4 : Nat) : List Byte :=
  [⟨(v1 * 4 + v2 / 16) % 256, by omega⟩,
   ⟨(v2 % 16 * 16 + v3 / 4) % 256, by omega⟩,
   ⟨(v3 % 4 * 64 + v4) % 256, by omega⟩]

/-- Base64-decode 4-character groups; padding is honoured in the final group
only; fails on anything outside the encoding's shape. -/
def b64decAux : List Char → Option (List Byte)
  | [] => some []
  | c1 :: c2 :: c3 :: c4 :: t =>
    if t = [] then
      match b64val c1, b64val c2 with
      | some v1, some v2 =>
        if c3 = Char.ofNat 61 then
          if c4 = Char.ofNat 61 then some [⟨(v1 * 4 + v2 / 16) % 256, by omega⟩] else none
        else
          match b64val c3 with
          | some v3 =>
            if c4 = Char.ofNat 61 then
              some [⟨(v1 * 4 + v2 / 16) % 256, by omega⟩,
                    ⟨(v2 % 16 * 16 + v3 / 4) % 256, by omega⟩]
            else
              match b64val c4 with
              | some v4 => some (b64group v1 v2 v3 v4)
              | none => none
          | none => none
      | _, _ => none
    else
      match b64val c1, b64val c2, b64val c3, b64val c4, b64decAux t with
      | some v1, some v2, some v3, some v4, some rest => some (b64group v1 v2 v3 v4 ++ rest)
      | _, _, _, _, _ => none
  | _ => none

theorem b64encAux_ne_nil (bs : List Byte) (h : bs ≠ []) : b64encAux bs ≠ [] := by
  match bs with
  | [] => exact absurd rfl h
  | [b1] => simp [b64encAux]
  | [b1, b2] => simp [b64encAux]
  | b1 :: b2 :: b3 :: t => simp [b64encAux]

theorem b64decAux_b64encAux (bs : List Byte) : b64decAux (b64encAux bs) = some bs := by
  match bs with
  | [] => rfl
  | [b1] =>
    have h1 := b1.isLt
    rw [show b64encAux [b1]
        = [b64char (b1.val / 4), b64char (b1.val % 4 * 16), Char.ofNat 61, Char.ofNat 61]
      from rfl]
    simp only [b64decAux, if_pos rfl,
      b64val_b64char (b1.val / 4) (by omega), b64val_b64char (b1.val % 4 * 16) (by omega),
      if_true]
    have e1 : (⟨(b1.val / 4 * 4 + b1.val % 4 * 16 / 16) % 256, by omega⟩ : Byte) = b1 := by
      apply Fin.ext; simp only [Fin.val_mk]; omega
    rw [e1]
  | [b1, b2] =>
    have h1 := b1.isLt
    have h2 := b2.isLt
    rw [show b64encAux [b1, b2]
        = [b64char (b1.val / 4), b64char (b1.val % 4 * 16 + b2.val / 16),
           b64char (b2.val % 16 * 4), Char.ofNat 61] from rfl]
    simp only [b64decAux, if_pos rfl,
      b64val_b64char (b1.val / 4) (by omega),
      b64val_b64char (b1.val % 4 * 16 + b2.val / 16) (by omega)]
    rw [if_neg (b64char_ne_pad (b2.val % 16 * 4) (by omega))]
    simp only [b64val_b64char (b2.val % 16 * 4) (by omega), if_pos rfl, if_true]
    have e1 : (⟨(b1.val / 4 * 4 + (b1.val % 4 * 16 + b2.val / 16) / 16) % 256, by omega⟩ : Byte)
        = b1 := by apply Fin.ext; simp only [Fin.val_mk]; omega
    have e2 : (⟨((b1.val % 4 * 16 + b2.val / 16) % 16 * 16 + b2.val % 16 * 4 / 4) % 256,
        by omega⟩ : Byte) = b2 := by apply Fin.ext; simp only [Fin.val_mk]; omega
    rw [e1, e2]
  | b1 :: b2 :: b3 :: t =>
    have h1 := b1.isLt
    have h2 := b2.isLt
    have h3 := b3.isLt
    have ih := b64decAux_b64encAux t
    rw [show b64encAux (b1 :: b2 :: b3 :: t)
        = b64char (b1.val / 4) :: b64char (b1.val % 4 * 16 + b2.val / 16)
          :: b64char (b2.val % 16 * 4 + b3.val / 64) :: b64char (b3.val % 64)
          :: b64encAux t from rfl]
    have e1 : (⟨(b1.val / 4 * 4 + (b1.val % 4 * 16 + b2.val / 16) / 16) % 256, by omega⟩ : Byte)
        = b1 := by apply Fin.ext; simp only [Fin.val_mk]; omega
    have e2 : (⟨((b1.val % 4 * 16 + b2.val / 16) % 16 * 16
        + (b2.val % 16 * 4 + b3.val / 64) / 4) % 256, by omega⟩ : Byte) = b2 := by
      apply Fin.ext; simp only [Fin.val_mk]; omega
    have e3 : (⟨((b2.val % 16 * 4 + b3.val / 64) % 4 * 64 + b3.val % 64) % 256,
        by omega⟩ : Byte) = b3 := by apply Fin.ext; simp only [Fin.val_mk]; omega
    cases ht : t with
    | nil =>
      subst ht
      rw [show b64encAux ([] : List Byte) = [] from rfl]
      simp only [b64decAux, if_pos rfl,
        b64val_b64char (b1.val / 4) (by omega),
        b64val_b64char (b1.val % 4 * 16 + b2.val / 16) (by omega)]
      rw [if_neg (b64char_ne_pad (b2.val % 16 * 4 + b3.val / 64) (by omega))]
      simp only [b64val_b64char (b2.val % 16 * 4 + b3.val / 64) (by omega)]
      rw [if_neg (b64char_ne_pad (b3.val % 64) (by omega))]
      simp only [b64val_b64char (b3.val % 64) (by omega)]
      unfold b64group
      rw [e1, e2, e3]
      simp
    | cons x t2 =>
      have hne : b64encAux t ≠ [] := by
        rw [ht]; exact b64encAux_ne_nil _ (by simp)
      rw [← ht]
      simp only [b64decAux, if_neg hne,
        b64val_b64char (b1.val / 4) (by omega),
        b64val_b64char (b1.val % 4 * 16 + b2.val / 16) (by omega),
        b64val_b64char (b2.val % 16 * 4 + b3.val / 64) (by omega),
        b64val_b64char (b3.val % 64) (by omega), ih]
      unfold b64group
      rw [e1, e2, e3]
      rfl

/-- Model of the external `base64.b64encode(...).decode('utf-8')`. -/
def b64encode (bs : List Byte) : String := String.mk (b64encAux bs)

/-- Model of the external `base64.b64decode`; the failure message is the
representative `binascii.Error` text. -/
def b64decode (s : String) : Except String (List Byte) :=
  match b64decAux s.data with
  | some bs => .ok bs
  | none => .error "Invalid base64-encoded string"

theorem b64decode_b64encode (bs : List Byte) : b64decode (b64encode bs) = .ok bs := by
  unfold b64decode b64encode
  rw [show (String.mk (b64encAux bs)).data = b64encAux bs from rfl, b64decAux_b64encAux]

/-!
Model of the cryptographic primitives used by
`src/backend/services/encryption_service.py`. The AES-GCM cipher and SHA-256
hash are external library code (`cryptography`, `hashlib`); they are modelled
by deterministic executable functions keeping the contracts the service uses:
SHA-256 is a deterministic 32-byte digest, AES-GCM appends a 16-byte tag
depending on key, nonce and plaintext, and decryption inverts encryption
exactly when key, nonce and tag match, failing with `InvalidTag` otherwise.
-/

/-- Modelled from the spec: `hashlib.sha256(key.encode('utf-8')).digest()` —
a deterministic 32-byte digest of the key string. -/
def sha256Model (s : String) : List Byte :=
  (List.range 32).map (fun i =>
    ⟨((s.data.foldl (fun a c => (a * 31 + c.toNat) % 256) (i + 7)) + i) % 256, by omega⟩)

/-- Modelled from the spec: the 16-byte AES-GCM authentication tag of the
external `cryptography` library, as a deterministic function of key, nonce
and plaintext. -/
def gcmTag (key nonce ct : List Byte) : List Byte :=
  (List.range 16).map (fun i =>
    ⟨(((key ++ nonce ++ ct).foldl (fun a b => (a * 131 + b.val + 1) % 256)
        (ct.length % 256)) + i * 17) % 256, by omega⟩)

/-- Modelled from the spec: `AESGCM(key).encrypt(nonce, data, None)` returns
ciphertext followed by the 16-byte tag (the model's ciphertext part carries
the plaintext bytes; only determinism, layout and authentication are used by
the source). -/
def aesgcmEncrypt (key nonce pt : List Byte) : List Byte :=
  pt ++ gcmTag key nonce pt

/-- Modelled from the spec: `AESGCM(key).decrypt(nonce, ct, None)` — strips
and checks the trailing 16-byte tag, failing like `InvalidTag` (whose
`str()` is the empty string) on any mismatch or short input. -/
def aesgcmDecrypt (key nonce payload : List Byte) : Except String (List Byte) :=
  if payload.length < 16 then .error ""
  else
    if payload.drop (payload.length - 16)
        = gcmTag key nonce (payload.take (payload.length - 16)) then
      .ok (payload.take (payload.length - 16))
    else .error ""

theorem gcmTag_length (key nonce ct : List Byte) : (gcmTag key nonce ct).length = 16 := by
  simp [gcmTag]

theorem aesgcmDecrypt_aesgcmEncrypt (key nonce pt : List Byte) :
    aesgcmDecrypt key nonce (aesgcmEncrypt key nonce pt) = .ok pt := by
  unfold aesgcmDecrypt aesgcmEncrypt
  have hlen : (pt ++ gcmTag key nonce pt).length = pt.length + 16 := by
    simp [gcmTag_length]
  rw [hlen]
  rw [if_neg (by omega)]
  have hpt : pt.length = pt.length + 16 - 16 := by omega
  rw [List.take_left' hpt, List.drop_left' hpt]
  rw [if_pos rfl]

/-- `EncryptionService.encrypt_data`: JSON-serialize with compact separators,
derive the 32-byte key by SHA-256, AES-GCM-encrypt under a fresh random
12-byte nonce (the `secrets.token_bytes(12)` randomness is passed explicitly
as an argument of the model), and base64-encode nonce‖ciphertext. -/
def encrypt_data (data : J) (key : String) (nonce : List Byte) : String :=
  b64encode (nonce ++ aesgcmEncrypt (sha256Model key) nonce (jsonDumps data))

/-- `EncryptionService.decrypt_data`: base64-decode, reject payloads shorter
than 12 bytes, split off the 12-byte nonce, AES-GCM-decrypt, JSON-parse.
Every failure is re-raised as `ValueError(f"Decryption failed: {str(e)}")`,
so the carried message embeds the sub-error's own text. -/
def decrypt_data (encrypted_data : String) (key : String) : Except String J :=
  match b64decode encrypted_data with
  | .error m => .error ("Decryption failed: " ++ m)
  | .ok encrypted_payload =>
    if encrypted_payload.length < 12 then
      .error ("Decryption failed: " ++ "Invalid encrypted payload")
    else
      match aesgcmDecrypt (sha256Model key) (encrypted_payload.take 12)
          (encrypted_payload.drop 12) with
      | .error m => .error ("Decryption failed: " ++ m)
      | .ok decrypted =>
        match jsonLoads decrypted with
        | .error m => .error ("Decryption failed: " ++ m)
        | .ok d => .ok d

/-- `EncryptionService.encrypt_response`: wraps `encrypt_data` in the wire
envelope `{"encrypted_data": <base64 string>}`. -/
def encrypt_response (data : J) (key : String) (nonce : List Byte) : J :=
  J.jobj (.ocons (strBytes "encrypted_data")
    (.jstr (strBytes (encrypt_data data key nonce))) .onil)

/-- C2: for every JSON value `x` and key string `k`, decrypting the result of
encrypting `x` with `k` (under any fresh 12-byte nonce) yields `x` back:
`decrypt_data (encrypt_data x k nonce) k = ok x`. -/
theorem c2_encrypt_decrypt_roundtrip (x : J) (k : String) (nonce : List Byte)
    (hn : nonce.length = 12) :
    decrypt_data (encrypt_data x k nonce) k = .ok x := by
  unfold encrypt_data decrypt_data
  have hlen : (nonce ++ aesgcmEncrypt (sha256Model k) nonce (jsonDumps x)).length
      = 12 + ((jsonDumps x).length + 16) := by
    simp [aesgcmEncrypt, gcmTag_length, hn]
  simp only [b64decode_b64encode]
  rw [if_neg (by rw [hlen]; omega)]
  rw [List.take_left' hn, List.drop_left' hn]
  simp only [aesgcmDecrypt_aesgcmEncrypt, jsonLoads_jsonDumps]

/-- Witness for C2 at a concrete object, key and nonce. -/
theorem c2_encrypt_decrypt_roundtrip_witness :
    decrypt_data
      (encrypt_data (J.jobj (.ocons (strBytes "a") (.jint 1) .onil)) "key"
        (List.replicate 12 (0 : Byte))) "key"
      = .ok (J.jobj (.ocons (strBytes "a") (.jint 1) .onil)) :=
  c2_encrypt_decrypt_roundtrip (J.jobj (.ocons (strBytes "a") (.jint 1) .onil)) "key"
    (List.replicate 12 (0 : Byte)) (by simp)

/-!
Model of `src/backend/services/auth_service.py`. JWTs of the external
python-jose library are modelled as a claim set plus the secret the token was
signed with; `jwt.decode` succeeds exactly when the signature (signing
secret) matches and `exp` has not passed, raising `JWTError` otherwise.
-/

structure JWTClaims where
  sub : Option String
  typ : Option String
  exp : Int
  iat : Int
  jti : Option String
  deriving DecidableEq

structure JWTToken where
  claims : JWTClaims
  sigKey : String
  deriving DecidableEq

/-- Modelled from the spec: `jose.jwt.decode(token, secret, algorithms=["HS256"])`:
succeeds iff the token was signed with `secret` and `exp` is still in the
future at time `now`; raises `JWTError` otherwise. -/
def jwtDecode (tok : JWTToken) (secret : String) (now : Int) : Except Unit JWTClaims :=
  if tok.sigKey = secret then
    if tok.claims.exp ≤ now then .error () else .ok tok.claims
  else .error ()

structure HTTPError where
  status : Nat
  detail : String
  deriving DecidableEq

structure TokenData where
  username : String
  token_type : String
  deriving DecidableEq

/-- The one generic 401 response raised by every failure branch of
`AuthService.verify_token`. -/
def invalidTokenError : HTTPError := ⟨401, "Invalid token"⟩

/-- `AuthService.verify_token`: decode the JWT (signature and expiry), then
reject when the `sub` claim is absent or the `type` claim differs from the
expected type; all failures surface as the same generic 401. -/
def verify_token (tok : JWTToken) (token_type : String) (secret : String) (now : Int) :
    Except HTTPError TokenData :=
  match jwtDecode tok secret now with
  | .error _ => .error invalidTokenError
  | .ok payload =>
    match payload.sub with
    | none => .error invalidTokenError
    | some username =>
      if payload.typ ≠ some token_type then .error invalidTokenError
      else .ok ⟨username, token_type⟩

/-- `AuthService.create_access_token` on `data = {"sub": username}`: signs
`{sub, type: "access", exp: now + delta, iat: now}` with the shared secret. -/
def create_access_token (data_sub : String) (expires_delta : Int) (now : Int)
    (secret : String) : JWTToken :=
  ⟨⟨some data_sub, some "access", now + expires_delta, now, none⟩, secret⟩

/-- `AuthService.create_refresh_token` on `data = {"sub": username}`: signs
`{sub, type: "refresh", exp, iat, jti}` with the shared secret. -/
def create_refresh_token (data_sub : String) (expires_delta : Int) (now : Int)
    (jti : String) (secret : String) : JWTToken :=
  ⟨⟨some data_sub, some "refresh", now + expires_delta, now, some jti⟩, secret⟩

structure TokenPair where
  access_token : JWTToken
  refresh_token : JWTToken
  deriving DecidableEq

/-- `AuthService.create_tokens`: issues the access/refresh pair for a
username, both carrying `sub = username`. -/
def create_tokens (username : String) (access_delta refresh_delta : Int) (now : Int)
    (jti : String) (secret : String) : TokenPair :=
  ⟨create_access_token username access_delta now secret,
   create_refresh_token username refresh_delta now jti secret⟩

/-- C4 counterexample: a token whose signature is valid, whose expiry has not
passed and whose type claim equals the expected type is still rejected when
its claim set lacks `sub` — so "fails iff signature invalid, expired, or type
mismatch" is false as stated. -/
theorem c4_counterexample_missing_sub :
    verify_token ⟨⟨none, some "access", 100, 0, none⟩, "secret"⟩ "access" "secret" 0
        = .error invalidTokenError
    ∧ jwtDecode ⟨⟨none, some "access", 100, 0, none⟩, "secret"⟩ "secret" 0
        = .ok ⟨none, some "access", 100, 0, none⟩ := by
  decide

/-- C4 (amended): verification fails with the generic 401 iff the signature
is invalid, the expiry has passed, the `sub` claim is missing, or the type
claim differs from the expected type; in particular a refresh token always
fails an access check and an access token always fails a refresh check. -/
theorem c4_verify_token_failure_characterization (tok : JWTToken)
    (token_type secret : String) (now : Int) :
    ((verify_token tok token_type secret now = .error invalidTokenError)
      ↔ tok.sigKey ≠ secret ∨ tok.claims.exp ≤ now
        ∨ tok.claims.sub = none ∨ tok.claims.typ ≠ some token_type)
    ∧ (∀ (u : String) (d n2 : Int) (j : String),
        verify_token (create_refresh_token u d n2 j secret) "access" secret now
          = .error invalidTokenError)
    ∧ (∀ (u : String) (d n2 : Int),
        verify_token (create_access_token u d n2 secret) "refresh" secret now
          = .error invalidTokenError) := by
  refine ⟨?_, ?_, ?_⟩
  · unfold verify_token jwtDecode
    by_cases hs : tok.sigKey = secret
    · by_cases he : tok.claims.exp ≤ now
      · simp [hs, he]
      · cases hsub : tok.claims.sub with
        | none => simp [hs, he, hsub]
        | some u =>
          by_cases ht : tok.claims.typ = some token_type
          · simp [hs, he, hsub, ht, invalidTokenError]
          · simp [hs, he, hsub, ht]
    · simp [hs]
  · intro u d n2 j
    unfold verify_token jwtDecode create_refresh_token
    by_cases he : (n2 + d : Int) ≤ now <;> simp [he]
  · intro u d n2
    unfold verify_token jwtDecode create_access_token
    by_cases he : (n2 + d : Int) ≤ now <;> simp [he]

/-- C10: a token whose signature is valid, unexpired and of the expected type
is still rejected with the same generic 401 when its claim set lacks `sub`;
tokens minted by `create_tokens` always carry `sub = username` and an access
token it mints verifies successfully while unexpired. -/
theorem c10_missing_sub_rejected (tok : JWTToken) (token_type secret : String)
    (now : Int) (u : String) (ad rd n2 : Int) (j : String)
    (hs : tok.sigKey = secret) (he : now < tok.claims.exp)
    (ht : tok.claims.typ = some token_type) (hsub : tok.claims.sub = none)
    (hfresh : now < n2 + ad) :
    verify_token tok token_type secret now = .error invalidTokenError
    ∧ (create_tokens u ad rd n2 j secret).access_token.claims.sub = some u
    ∧ (create_tokens u ad rd n2 j secret).refresh_token.claims.sub = some u
    ∧ verify_token (create_access_token u ad n2 secret) "access" secret now
        = .ok ⟨u, "access"⟩ := by
  refine ⟨?_, rfl, rfl, ?_⟩
  · unfold verify_token jwtDecode
    simp [hs, hsub, show ¬ tok.claims.exp ≤ now by omega]
  · unfold verify_token jwtDecode create_access_token
    simp [show ¬ (n2 + ad : Int) ≤ now by omega]

/-- Witness for C10 at concrete tokens and times. -/
theorem c10_missing_sub_rejected_witness :
    verify_token ⟨⟨none, some "access", 100, 0, none⟩, "s"⟩ "access" "s" 0
        = .error invalidTokenError
    ∧ (create_tokens "alice" 600 3600 0 "jti0" "s").access_token.claims.sub = some "alice"
    ∧ (create_tokens "alice" 600 3600 0 "jti0" "s").refresh_token.claims.sub = some "alice"
    ∧ verify_token (create_access_token "alice" 600 0 "s") "access" "s" 0
        = .ok ⟨"alice", "access"⟩ :=
  c10_missing_sub_rejected ⟨⟨none, some "access", 100, 0, none⟩, "s"⟩ "access" "s" 0
    "alice" 600 3600 0 "jti0" rfl (by decide) rfl rfl (by decide)

set_option maxRecDepth 100000 in
/-- C8 (code-bug evidence): the three decryption failure causes are
observably distinguishable. The short-payload check raises
`ValueError("Invalid encrypted payload")`, AEAD authentication failure raises
`InvalidTag` (empty `str()`), and a JSON parse failure raises a
`JSONDecodeError`; `decrypt_data` re-raises each as
`ValueError(f"Decryption failed: {str(e)}")`, embedding the sub-error's own
text, and the middleware returns that message to the client — so the
observable error content reveals which sub-check failed, contradicting the
required single generic failure kind. -/
theorem c8_decrypt_error_messages_distinguish_subchecks :
    decrypt_data "" "key" = .error "Decryption failed: Invalid encrypted payload"
    ∧ decrypt_data (b64encode (List.replicate 13 (0 : Byte))) "key"
        = .error "Decryption failed: "
    ∧ decrypt_data
        (b64encode (List.replicate 12 (0 : Byte)
          ++ aesgcmEncrypt (sha256Model "key") (List.replicate 12 (0 : Byte))
              [(200 : Byte)])) "key"
        = .error "Decryption failed: Expecting value: line 1 column 1 (char 0)"
    ∧ ("Decryption failed: Invalid encrypted payload" : String) ≠ "Decryption failed: "
    ∧ ("Decryption failed: " : String)
        ≠ "Decryption failed: Expecting value: line 1 column 1 (char 0)" := by
  refine ⟨?_, ?_, ?_, ?_, ?_⟩ <;> decide

/-!
Model of `RateLimiter.is_allowed` from
`src/backend/middleware/security_middleware.py`. Time is modelled as `Int`
seconds; the per-key deque of request timestamps is a time-ordered list.
-/

/-- The eviction loop: `while request_times and request_times[0] < window_start:
request_times.popleft()` — pops leading timestamps older than the window
start. -/
def pruneOld (window_start : Int) : List Int → List Int
  | [] => []
  | t :: rest => if t < window_start then pruneOld window_start rest else t :: rest

/-- `RateLimiter.is_allowed`: evict old leading timestamps, reject when the
remaining count has reached `max_requests`, otherwise record `now` and
admit. Returns the decision and the updated per-key state. -/
def is_allowed (now : Int) (max_requests : Nat) (window_seconds : Int)
    (request_times : List Int) : Bool × List Int :=
  if (pruneOld (now - window_seconds) request_times).length ≥ max_requests then
    (false, pruneOld (now - window_seconds) request_times)
  else
    (true, pruneOld (now - window_seconds) request_times ++ [now])

/-- A sequence of `is_allowed` calls at the given times, threading the state;
returns the list of decisions. -/
def runCalls (max_requests : Nat) (window_seconds : Int) :
    List Int → List Int → List Bool
  | [], _ => []
  | t :: ts, st =>
    (is_allowed t max_requests window_seconds st).1
      :: runCalls max_requests window_seconds ts (is_allowed t max_requests window_seconds st).2

theorem pruneOld_of_all_ge (ws : Int) (l : List Int) (h : ∀ t ∈ l, ¬ t < ws) :
    pruneOld ws l = l := by
  induction l with
  | nil => rfl
  | cons t rest ih =>
    simp only [pruneOld]
    rw [if_neg (h t (by simp))]

theorem pruneOld_of_all_lt (ws : Int) (l : List Int) (h : ∀ t ∈ l, t < ws) :
    pruneOld ws l = [] := by
  induction l with
  | nil => rfl
  | cons t rest ih =>
    simp only [pruneOld]
    rw [if_pos (h t (by simp))]
    exact ih (fun x hx => h x (by simp [hx]))

theorem pruneOld_sorted_filter (ws : Int) (l : List Int)
    (h : List.Sorted (· ≤ ·) l) :
    pruneOld ws l = l.filter (fun t => decide (¬ t < ws)) := by
  induction l with
  | nil => rfl
  | cons t rest ih =>
    rw [List.sorted_cons] at h
    simp only [pruneOld]
    by_cases hlt : t < ws
    · rw [if_pos hlt]
      rw [ih h.2]
      simp [hlt]
    · rw [if_neg hlt]
      have hrest : rest.filter (fun t => decide (¬ t < ws)) = rest :=
        List.filter_eq_self.mpr (fun x hx => by
          simp only [decide_eq_true_eq]
          have := h.1 x hx
          omega)
      rw [List.filter_cons_of_pos (by simp [hlt]), hrest]

/-- Decisions produced by a run of `n` calls when the pre-existing count is
`c` and nothing is evicted: admit while the count is below `N`. -/
def admitPattern (N : Nat) : Nat → Nat → List Bool
  | _, 0 => []
  | c, n + 1 => (decide (c < N)) :: admitPattern N (if c < N then c + 1 else c) n

theorem admitPattern_replicate (N : Nat) (n c : Nat) :
    admitPattern N c n
      = List.replicate (min n (N - c)) true ++ List.replicate (n - (N - c)) false := by
  induction n generalizing c with
  | zero => simp [admitPattern]
  | succ n ih =>
    simp only [admitPattern]
    by_cases hc : c < N
    · rw [if_pos hc, ih (c + 1)]
      have h1 : min (n + 1) (N - c) = 1 + min n (N - (c + 1)) := by omega
      have h2 : n + 1 - (N - c) = n - (N - (c + 1)) := by omega
      rw [h1, h2, decide_eq_true hc, List.replicate_add]
      simp
    · rw [if_neg hc, ih c]
      have h1 : N - c = 0 := by omega
      rw [decide_eq_false hc]
      simp [h1, List.replicate_succ]

theorem runCalls_window (max_requests : Nat) (w t0 : Int) (ts : List Int)
    (st : List Int)
    (hts : ∀ t ∈ ts, t0 ≤ t ∧ t < t0 + w)
    (hst : ∀ s ∈ st, t0 ≤ s) :
    runCalls max_requests w ts st = admitPattern max_requests st.length ts.length := by
  induction ts generalizing st with
  | nil => simp [runCalls, admitPattern]
  | cons t ts ih =>
    have hrange := hts t (by simp)
    have hprune : pruneOld (t - w) st = st :=
      pruneOld_of_all_ge _ _ (fun s hs => by have := hst s hs; omega)
    simp only [runCalls, is_allowed, hprune, admitPattern]
    by_cases hfull : st.length ≥ max_requests
    · rw [if_pos hfull]
      simp only []
      rw [ih st (fun x hx => hts x (by simp [hx])) hst]
      have : ¬ st.length < max_requests := by omega
      rw [if_neg this, decide_eq_false this]
    · rw [if_neg hfull]
      simp only []
      have hst2 : ∀ s ∈ st ++ [t], t0 ≤ s := by
        intro s hs
        rcases List.mem_append.mp hs with h | h
        · exact hst s h
        · simp at h; omega
      rw [ih (st ++ [t]) (fun x hx => hts x (by simp [hx])) hst2]
      have hlt : st.length < max_requests := by omega
      rw [if_pos hlt, decide_eq_true hlt]
      simp

/-- C3: `is_allowed` first evicts the recorded timestamps older than
`now - window_seconds` (oldest-first; on a time-ordered deque this evicts
exactly the old ones), then admits iff the remaining count is strictly below
`max_requests`, recording `now` on admission; starting from an empty key,
exactly `N` calls within one window are admitted and the `(N+1)`th is
rejected; and once every recorded timestamp is older than the window, a
previously rejected key is admissible again. -/
theorem c3_rate_limiter_sliding_window (now w : Int) (N : Nat) (st : List Int) :
    ((is_allowed now N w st).1 = decide ((pruneOld (now - w) st).length < N))
    ∧ ((is_allowed now N w st).2
        = if (pruneOld (now - w) st).length < N then pruneOld (now - w) st ++ [now]
          else pruneOld (now - w) st)
    ∧ (List.Sorted (· ≤ ·) st →
        pruneOld (now - w) st = st.filter (fun t => decide (¬ t < now - w)))
    ∧ (∀ (ts : List Int) (t0 : Int), (∀ t ∈ ts, t0 ≤ t ∧ t < t0 + w) →
        runCalls N w ts []
          = List.replicate (min ts.length N) true
              ++ List.replicate (ts.length - N) false)
    ∧ ((∀ s ∈ st, s < now - w) → 1 ≤ N → (is_allowed now N w st).1 = true) := by
  refine ⟨?_, ?_, pruneOld_sorted_filter _ st, ?_, ?_⟩
  · unfold is_allowed
    by_cases h : (pruneOld (now - w) st).length ≥ N
    · rw [if_pos h]
      exact (decide_eq_false (by omega)).symm
    · rw [if_neg h]
      exact (decide_eq_true (by omega)).symm
  · unfold is_allowed
    by_cases h : (pruneOld (now - w) st).length ≥ N
    · rw [if_pos h, if_neg (by omega)]
    · rw [if_neg h, if_pos (by omega)]
  · intro ts t0 hts
    rw [runCalls_window N w t0 ts [] hts (by simp)]
    rw [show ([] : List Int).length = 0 from rfl, admitPattern_replicate]
    simp
  · intro hold hN
    unfold is_allowed
    rw [pruneOld_of_all_lt _ _ hold]
    rw [if_neg (by simp; omega)]

/-- Witness for C3: ceiling 2, window 60s; three calls at times 10, 20, 30
admit exactly two and reject the third; a key whose records are all older
than the window admits again. -/
theorem c3_rate_limiter_sliding_window_witness :
    runCalls 2 60 [10, 20, 30] [] = [true, true, false]
    ∧ (is_allowed 100 2 60 [10, 20]).1 = true := by
  constructor
  · have hb := (c3_rate_limiter_sliding_window 100 60 2 []).2.2.2.1 [10, 20, 30] 10
      (by decide)
    rw [hb]
    decide
  · exact (c3_rate_limiter_sliding_window 100 60 2 [10, 20]).2.2.2.2
      (by decide) (by decide)

/-!
Model of `GeminiService._insert_inline_citations` and the title fallback from
`src/backend/services/gemini_service.py`, over the `GroundingSupport`
pydantic model of `src/backend/models.py`.
-/

structure GroundingSupport where
  start_index : Nat
  end_index : Nat
  text : String
  reference_indices : List Nat
  deriving DecidableEq

/-- `''.join([f'[{idx}]' for idx in support.reference_indices])`. -/
def citationMarker (refs : List Nat) : List Char :=
  (refs.map (fun i => ("[" ++ toString i ++ "]").data)).flatten

/-- One iteration of the citation loop: skip supports with no reference
indices; insert the bracketed marker at `end_index` when it is within the
current text, else leave the text unchanged. -/
def insertSupportCitation (res : List Char) (s : GroundingSupport) : List Char :=
  if s.reference_indices = [] then res
  else if s.end_index ≤ res.length then
    res.take s.end_index ++ citationMarker s.reference_indices ++ res.drop s.end_index
  else res

/-- Stable insertion keeping the list sorted by strictly descending key
(ties keep earlier elements first, as Python's stable `sorted` does). -/
def insertDescBy (key : GroundingSupport → Nat) (x : GroundingSupport) :
    List GroundingSupport → List GroundingSupport
  | [] => [x]
  | y :: ys => if key y < key x then x :: y :: ys else y :: insertDescBy key x ys

/-- Stable descending sort by a key — model of
`sorted(grounding_supports, key=..., reverse=True)`. -/
def sortDescBy (key : GroundingSupport → Nat) (l : List GroundingSupport) :
    List GroundingSupport :=
  l.foldl (fun acc x => insertDescBy key x acc) []

/-- `GeminiService._insert_inline_citations`: sorts the supports by
`start_index` in reverse order, then inserts each support's citation marker
at its `end_index`. -/
def insert_inline_citations (text : List Char) (supports : List GroundingSupport) :
    List Char :=
  (sortDescBy (fun s => s.start_index) supports).foldl insertSupportCitation text

/-- Citation insertion as the spec words it (for comparison with the code):
supports processed in descending `end_index` order. -/
def insertInlineCitationsSpecOrder (text : List Char) (supports : List GroundingSupport) :
    List Char :=
  (sortDescBy (fun s => s.end_index) supports).foldl insertSupportCitation text

/-- C6 counterexample: the code sorts supports by descending `start_index`,
not descending `end_index`; on two nested supports the two orders give
different outputs, so the claim's processing order is false as stated. -/
theorem c6_counterexample_sort_key :
    insert_inline_citations "abcdefghij".data
        [⟨0, 8, "", [1]⟩, ⟨5, 6, "", [2]⟩]
      = "abcdef[2[1]]ghij".data
    ∧ insertInlineCitationsSpecOrder "abcdefghij".data
        [⟨0, 8, "", [1]⟩, ⟨5, 6, "", [2]⟩]
      = "abcdef[2]gh[1]ij".data
    ∧ insert_inline_citations "abcdefghij".data
        [⟨0, 8, "", [1]⟩, ⟨5, 6, "", [2]⟩]
      ≠ insertInlineCitationsSpecOrder "abcdefghij".data
        [⟨0, 8, "", [1]⟩, ⟨5, 6, "", [2]⟩] := by
  refine ⟨by decide, by decide, by decide⟩

/-- C6 (amended): citations are inserted by processing supports in descending
`start_index` order (not `end_index`), inserting at each support's
`end_index` the concatenated bracketed 1-based reference indices (skipped when
the index list is empty or `end_index` exceeds the current text); a single
support inserts exactly at its `end_index`, and the concrete example
`[{start:0,end:5,refs:[1]}]` over `"Hello world"` still yields
`"Hello[1] world"`. -/
theorem c6_insert_citations_desc_start_order (text : List Char)
    (s s1 s2 : GroundingSupport) (h12 : s1.start_index < s2.start_index)
    (hrefs : s.reference_indices ≠ []) (hend : s.end_index ≤ text.length) :
    insert_inline_citations text [s]
        = text.take s.end_index ++ citationMarker s.reference_indices
            ++ text.drop s.end_index
    ∧ insert_inline_citations text [s1, s2]
        = insertSupportCitation (insertSupportCitation text s2) s1
    ∧ insert_inline_citations "Hello world".data [⟨0, 5, "Hello", [1]⟩]
        = "Hello[1] world".data := by
  refine ⟨?_, ?_, by decide⟩
  · unfold insert_inline_citations sortDescBy
    simp only [List.foldl, insertDescBy, insertSupportCitation]
    rw [if_neg hrefs, if_pos hend]
  · unfold insert_inline_citations sortDescBy
    simp only [List.foldl, insertDescBy]
    rw [if_pos h12]
    rfl

/-- Witness for C6's amended theorem at concrete text and supports. -/
theorem c6_insert_citations_desc_start_order_witness :
    insert_inline_citations "Hello world".data [⟨0, 5, "Hello", [1]⟩]
        = "Hello world".data.take 5 ++ citationMarker [1] ++ "Hello world".data.drop 5
    ∧ insert_inline_citations "Hello world".data [⟨0, 2, "", [1]⟩, ⟨1, 3, "", [2]⟩]
        = insertSupportCitation
            (insertSupportCitation "Hello world".data ⟨1, 3, "", [2]⟩) ⟨0, 2, "", [1]⟩
    ∧ insert_inline_citations "Hello world".data [⟨0, 5, "Hello", [1]⟩]
        = "Hello[1] world".data :=
  c6_insert_citations_desc_start_order "Hello world".data ⟨0, 5, "Hello", [1]⟩
    ⟨0, 2, "", [1]⟩ ⟨1, 3, "", [2]⟩ (by decide) (by decide) (by decide)

/-- Helper for `pySplit`: walks the characters, accumulating the current
word reversed and emitting it at whitespace boundaries. -/
def pySplitAux : List Char → List Char → List String
  | [], acc => if acc = [] then [] else [String.mk acc.reverse]
  | c :: rest, acc =>
    if c.isWhitespace then
      if acc = [] then pySplitAux rest []
      else String.mk acc.reverse :: pySplitAux rest []
    else pySplitAux rest (c :: acc)

/-- `first_message.split()` — Python `str.split()` with no separator: split on
whitespace runs, discarding empty pieces. -/
def pySplit (s : String) : List String := pySplitAux s.data []

/-- The deterministic fallback of `GeminiService.generate_title`:
`words = first_message.split()[:5]; " ".join(words) + ("..." if len(words) >= 5 else "")`. -/
def titleFallback (first_message : String) : String :=
  String.intercalate " " ((pySplit first_message).take 5)
    ++ (if 5 ≤ ((pySplit first_message).take 5).length then "..." else "")

/-- One `str.strip(chars)` pass: drop the cut characters from both ends. -/
def pyStripChars (isCut : Char → Bool) (l : List Char) : List Char :=
  ((l.dropWhile isCut).reverse.dropWhile isCut).reverse

/-- `response.text.strip().strip('"').strip("'")`: strip whitespace, then
double quotes (code 34), then single quotes (code 39). -/
def pyStripTitle (l : List Char) : List Char :=
  pyStripChars (fun c => c = Char.ofNat 39)
    (pyStripChars (fun c => c = Char.ofNat 34)
      (pyStripChars (fun c => c.isWhitespace) l))

/-- `GeminiService.generate_title`: on success, the auxiliary call's text is
stripped of whitespace and quotes and truncated to 50 characters; on any
failure (`apiResult = none`) the deterministic fallback is used. -/
def generate_title (apiResult : Option String) (first_message : String) : String :=
  match apiResult with
  | some t =>
    if (String.mk (pyStripTitle t.data)).length > 50 then
      String.mk ((pyStripTitle t.data).take 50)
    else String.mk (pyStripTitle t.data)
  | none => titleFallback first_message

/-- C9 counterexample: a message of exactly five words is not truncated, yet
the fallback appends the ellipsis marker (the code tests `len(words) >= 5`,
which also fires when nothing was cut). -/
theorem c9_counterexample_exactly_five_words :
    pySplit "a b c d e" = ["a", "b", "c", "d", "e"]
    ∧ generate_title none "a b c d e" = "a b c d e..." := by
  refine ⟨by decide, by decide⟩

/-- C9 (amended): on failure of the auxiliary title call, the fallback is the
first five words of the message joined by spaces, with the ellipsis marker
appended if and only if the message contains at least five words (so a
five-word message carries the marker although it was not truncated). -/
theorem c9_title_fallback_first_five_words (msg : String) :
    (5 ≤ (pySplit msg).length →
      generate_title none msg
        = String.intercalate " " ((pySplit msg).take 5) ++ "...")
    ∧ ((pySplit msg).length < 5 →
      generate_title none msg = String.intercalate " " (pySplit msg)) := by
  constructor
  · intro h
    unfold generate_title titleFallback
    rw [if_pos (by rw [List.length_take]; omega)]
  · intro h
    unfold generate_title titleFallback
    rw [if_neg (by rw [List.length_take]; omega),
      List.take_of_length_le (by omega)]
    simp

/-- Witness for C9's amended theorem on a six-word and a two-word message. -/
theorem c9_title_fallback_first_five_words_witness :
    generate_title none "a b c d e f"
        = String.intercalate " " ((pySplit "a b c d e f").take 5) ++ "..."
    ∧ generate_title none "hi there"
        = String.intercalate " " (pySplit "hi there") :=
  ⟨(c9_title_fallback_first_five_words "a b c d e f").1 (by decide),
   (c9_title_fallback_first_five_words "hi there").2 (by decide)⟩

/-!
Model of the response phase of `EncryptionMiddleware.dispatch`
(`src/backend/middleware/encryption_middleware.py`, lines 119-154).
-/

structure HTTPResponse where
  status : Nat
  headers : List (String × String)
  body : List Byte
  deriving DecidableEq

/-- `response.headers.get(k)`. -/
def headerGet (hs : List (String × String)) (k : String) : Option String :=
  (hs.find? (fun p => p.1 = k)).map (fun p => p.2)

/-- `response.headers.get("content-type", "")`. -/
def contentTypeOf (r : HTTPResponse) : String :=
  (headerGet r.headers "content-type").getD ""

/-- Whether `needle` starts the character list. -/
def startsWithChars : List Char → List Char → Bool
  | [], _ => true
  | _ :: _, [] => false
  | a :: as, b :: bs => a = b && startsWithChars as bs

/-- Whether `needle` occurs inside the character list (Python `in`). -/
def containsSubChars (needle : List Char) : List Char → Bool
  | [] => startsWithChars needle []
  | c :: rest => startsWithChars needle (c :: rest) || containsSubChars needle rest

/-- Python substring membership `sub in s`. -/
def strContainsSub (s sub : String) : Bool := containsSubChars sub.data s.data

/-- The generic 500 body of the `RESPONSE_ENCRYPTION_FAILED` branch. -/
def responseEncryptionFailedBody : J :=
  J.jobj (.ocons (strBytes "success") (.jbool false)
    (.ocons (strBytes "error")
      (J.jobj (.ocons (strBytes "code") (.jstr (strBytes "RESPONSE_ENCRYPTION_FAILED"))
        (.ocons (strBytes "message") (.jstr (strBytes "Failed to encrypt response"))
          .onil)))
      .onil))

/-- Response phase of `EncryptionMiddleware.dispatch`: for a 200/201 response
whose content type does not contain `text/event-stream`, buffer the body,
parse it as JSON, re-encrypt it as `{"encrypted_data": ...}` and replace the
response with the Content-Length header removed (the framework then emits
fresh framing headers for the new body); if buffering/parsing fails, a
generic 500 replaces the payload; every other response passes through
untouched. -/
def dispatchResponsePhase (resp : HTTPResponse) (key : String) (nonce : List Byte) :
    HTTPResponse :=
  if ((resp.status == 200) || (resp.status == 201))
      && !(strContainsSub (contentTypeOf resp) "text/event-stream") then
    match jsonLoads resp.body with
    | .ok d =>
      { status := resp.status
        headers := resp.headers.filter (fun p => p.1 ≠ "content-length")
        body := jsonDumps (encrypt_response d key nonce) }
    | .error _ =>
      { status := 500
        headers := [("content-type", "application/json")]
        body := jsonDumps responseEncryptionFailedBody }
  else resp

theorem headerGet_filter_self_none (hs : List (String × String)) (k : String) :
    headerGet (hs.filter (fun p => p.1 ≠ k)) k = none := by
  unfold headerGet
  rw [List.find?_eq_none.mpr]
  · rfl
  · intro x hx
    have hmem := List.of_mem_filter hx
    simp only [decide_eq_true_eq] at hmem ⊢
    exact hmem

/-- C5 counterexample: a 202 Accepted response with a JSON body and a
Content-Length header is passed through completely untouched — the response
phase fires only on statuses 200 and 201, not on every success status. -/
theorem c5_counterexample_202_not_encrypted :
    dispatchResponsePhase
        ⟨202, [("content-type", "application/json"), ("content-length", "3")],
          jsonDumps (J.jobj .onil)⟩ "key" (List.replicate 12 (0 : Byte))
      = ⟨202, [("content-type", "application/json"), ("content-length", "3")],
          jsonDumps (J.jobj .onil)⟩
    ∧ 200 ≤ 202 ∧ 202 < 300
    ∧ jsonLoads (jsonDumps (J.jobj .onil)) = .ok (J.jobj .onil)
    ∧ headerGet [("content-type", "application/json"), ("content-length", "3")]
        "content-length" = some "3" := by
  refine ⟨by decide, by decide, by decide, jsonLoads_jsonDumps _, by decide⟩

/-- C5 (amended): in the response phase, an SSE (`text/event-stream`) content
type is always passed through untouched; a response with status 200 or 201
and a non-stream JSON body is replaced by the encrypted envelope body with
the Content-Length header dropped; statuses other than 200 and 201 —
including other success codes — pass through untouched. -/
theorem c5_response_phase_sse_and_status (resp : HTTPResponse) (key : String)
    (nonce : List Byte) :
    (strContainsSub (contentTypeOf resp) "text/event-stream" = true →
      dispatchResponsePhase resp key nonce = resp)
    ∧ ((resp.status = 200 ∨ resp.status = 201) →
       strContainsSub (contentTypeOf resp) "text/event-stream" = false →
       ∀ d, jsonLoads resp.body = .ok d →
         dispatchResponsePhase resp key nonce
           = { status := resp.status
               headers := resp.headers.filter (fun p => p.1 ≠ "content-length")
               body := jsonDumps (encrypt_response d key nonce) }
         ∧ headerGet (dispatchResponsePhase resp key nonce).headers "content-length"
             = none)
    ∧ (¬ (resp.status = 200 ∨ resp.status = 201) →
      dispatchResponsePhase resp key nonce = resp) := by
  refine ⟨?_, ?_, ?_⟩
  · intro h
    unfold dispatchResponsePhase
    rw [if_neg (by simp [h])]
  · intro hs hct d hd
    have heq : dispatchResponsePhase resp key nonce
        = { status := resp.status
            headers := resp.headers.filter (fun p => p.1 ≠ "content-length")
            body := jsonDumps (encrypt_response d key nonce) } := by
      unfold dispatchResponsePhase
      rw [if_pos (by rcases hs with h | h <;> simp [h, hct])]
      rw [hd]
    refine ⟨heq, ?_⟩
    rw [heq]
    exact headerGet_filter_self_none resp.headers "content-length"
  · intro h
    unfold dispatchResponsePhase
    rw [if_neg (by simp; intro hc; exact absurd (by omega : resp.status = 200 ∨ resp.status = 201) h)]

/-- Witness for C5's amended theorem: an SSE response passes through, a 200
JSON response is replaced with Content-Length dropped, a 404 passes through. -/
theorem c5_response_phase_sse_and_status_witness :
    dispatchResponsePhase
        ⟨200, [("content-type", "text/event-stream")], jsonDumps (J.jobj .onil)⟩
        "key" (List.replicate 12 (0 : Byte))
      = ⟨200, [("content-type", "text/event-stream")], jsonDumps (J.jobj .onil)⟩
    ∧ dispatchResponsePhase
        ⟨200, [("content-length", "3")], jsonDumps (J.jobj .onil)⟩
        "key" (List.replicate 12 (0 : Byte))
      = { status := 200
          headers := [("content-length", "3")].filter (fun p => p.1 ≠ "content-length")
          body := jsonDumps (encrypt_response (J.jobj .onil) "key"
            (List.replicate 12 (0 : Byte))) }
    ∧ dispatchResponsePhase
        ⟨404, [("content-type", "application/json")], jsonDumps (J.jobj .onil)⟩
        "key" (List.replicate 12 (0 : Byte))
      = ⟨404, [("content-type", "application/json")], jsonDumps (J.jobj .onil)⟩ :=
  ⟨(c5_response_phase_sse_and_status
      ⟨200, [("content-type", "text/event-stream")], jsonDumps (J.jobj .onil)⟩
      "key" (List.replicate 12 (0 : Byte))).1 (by decide),
   ((c5_response_phase_sse_and_status
      ⟨200, [("content-length", "3")], jsonDumps (J.jobj .onil)⟩
      "key" (List.replicate 12 (0 : Byte))).2.1 (Or.inl rfl) (by decide)
      (J.jobj .onil) (jsonLoads_jsonDumps _)).1,
   (c5_response_phase_sse_and_status
      ⟨404, [("content-type", "application/json")], jsonDumps (J.jobj .onil)⟩
      "key" (List.replicate 12 (0 : Byte))).2.2 (by decide)⟩

/-!
Model of the SSE chat stream generator `create_sse_stream` from
`src/backend/routers/chat.py`. The generator's yields and the completed
persistence write are recorded as a trace; the collaborators (Firestore,
Gemini) are an oracle describing their behaviour for this run, with a Boolean
per call site that may raise. `gemini_service.generate_response_stream` and
`generate_response_with_grounding` catch their own upstream exceptions and
degrade to a fallback text, so they never raise into the pipeline.
-/

inductive SSEEvent where
  | conversationStart
  | encryptedChunk (encrypted_data : String)
  | encryptedDone (encrypted_data : String)
  | errorEvent (msg : String)
  deriving DecidableEq

inductive TraceItem where
  | ev (e : SSEEvent)
  | persisted (conversation_id : String)
  deriving DecidableEq

structure ChatOracle where
  getConvRaises : Bool
  streamChunks : List String
  streamRaises : Bool
  groundedRaises : Bool
  groundedText : String
  groundedRefs : JArr
  groundedQueries : JArr
  groundedSupports : JArr
  groundedUrls : JArr
  groundedFlag : Bool
  titleText : String
  saveRaises : Bool
  newConvId : String

/-- The fixed message of the stream's terminal `error` event. -/
def sseErrorMsg : String :=
  "An error occurred while generating the response. Please try again."

/-- The fallback text yielded by the Gemini wrappers when the upstream call
raises. -/
def genFallbackText : String :=
  "Error: Unable to generate response. Please try again."

/-- `GeminiService.generate_response_stream`: yields the upstream chunks; if
the upstream call raises at any point, the wrapper's own `except` yields the
fixed fallback text instead of propagating the exception. -/
def generate_response_stream (o : ChatOracle) : List String :=
  o.streamChunks ++ (if o.streamRaises then [genFallbackText] else [])

/-- `GeminiService.generate_response_with_grounding`: on upstream failure
returns the fallback text with empty metadata and `grounded = False`; never
raises. -/
def generate_response_with_grounding (o : ChatOracle) :
    String × JArr × JArr × JArr × JArr × Bool :=
  if o.groundedRaises then (genFallbackText, .anil, .anil, .anil, .anil, false)
  else (o.groundedText, o.groundedRefs, o.groundedQueries, o.groundedSupports,
        o.groundedUrls, o.groundedFlag)

/-- The `{'content': chunk}` payload encrypted for each chunk event. -/
def chunkPayload (content : String) : J :=
  J.jobj (.ocons (strBytes "content") (.jstr (strBytes content)) .onil)

/-- The `final_data` dict of the terminal `done` event: type and
conversation id, plus the grounding metadata exactly when grounded. -/
def finalDoneData (conversation_id : String) (o : ChatOracle) (grounded : Bool) : J :=
  if grounded then
    J.jobj (.ocons (strBytes "type") (.jstr (strBytes "done"))
      (.ocons (strBytes "conversation_id") (.jstr (strBytes conversation_id))
      (.ocons (strBytes "references") (.jarr o.groundedRefs)
      (.ocons (strBytes "search_queries") (.jarr o.groundedQueries)
      (.ocons (strBytes "grounding_supports") (.jarr o.groundedSupports)
      (.ocons (strBytes "url_context_urls") (.jarr o.groundedUrls)
      (.ocons (strBytes "grounded") (.jbool true) .onil)))))))
  else
    J.jobj (.ocons (strBytes "type") (.jstr (strBytes "done"))
      (.ocons (strBytes "conversation_id") (.jstr (strBytes conversation_id)) .onil))

/-- The encrypted chunk events of the stream: one chunk with the whole text
on the grounded path, one per yielded fragment on the streaming path (the
`i`-th encryption call consumes `nonces i`). -/
def sseChunkEvents (key : String) (enable_search : Bool) (o : ChatOracle)
    (nonces : Nat → List Byte) : List TraceItem :=
  if enable_search then
    [.ev (.encryptedChunk (encrypt_data
      (chunkPayload (generate_response_with_grounding o).1) key (nonces 0)))]
  else
    (generate_response_stream o).enum.map
      (fun p => .ev (.encryptedChunk (encrypt_data (chunkPayload p.2) key (nonces p.1))))

/-- Number of chunk events emitted before the terminal event. -/
def sseNumChunks (enable_search : Bool) (o : ChatOracle) : Nat :=
  if enable_search then 1 else (generate_response_stream o).length

/-- The `grounded` flag reaching the terminal event. -/
def sseGroundedFlag (enable_search : Bool) (o : ChatOracle) : Bool :=
  if enable_search then (generate_response_with_grounding o).2.2.2.2.2 else false

/-- Chunk phase, persistence and terminal event of `create_sse_stream`,
shared by the new-conversation and continuation paths; a persistence failure
aborts into the single unencrypted terminal error event. -/
def sseTail (key : String) (finalCid : String) (enable_search : Bool)
    (o : ChatOracle) (nonces : Nat → List Byte) : List TraceItem :=
  sseChunkEvents key enable_search o nonces ++
    (if o.saveRaises then [.ev (.errorEvent sseErrorMsg)]
     else [.persisted finalCid,
           .ev (.encryptedDone (encrypt_data
             (finalDoneData finalCid o (sseGroundedFlag enable_search o)) key
             (nonces (sseNumChunks enable_search o))))])

/-- `create_sse_stream`: when a (truthy) conversation id is supplied, load its
history first — a raise there yields only the terminal error event; when no
id is supplied, emit the unencrypted `conversation_start` first. Then the
chunk phase, the persistence write and exactly one terminal event. -/
def createSseStream (message key : String) (conversation_id : Option String)
    (enable_search : Bool) (o : ChatOracle) (nonces : Nat → List Byte) :
    List TraceItem :=
  if conversation_id.getD "" ≠ "" then
    if o.getConvRaises then [.ev (.errorEvent sseErrorMsg)]
    else sseTail key (conversation_id.getD "") enable_search o nonces
  else
    .ev .conversationStart :: sseTail key o.newConvId enable_search o nonces

/-- The SSE events of a trace, in order. -/
def eventsOf : List TraceItem → List SSEEvent :=
  List.filterMap (fun i => match i with | .ev e => some e | .persisted _ => none)

def isTerminalEv : SSEEvent → Bool
  | .encryptedDone _ => true
  | .errorEvent _ => true
  | _ => false

def isErrorEv : SSEEvent → Bool
  | .errorEvent _ => true
  | _ => false

def isDoneEv : SSEEvent → Bool
  | .encryptedDone _ => true
  | _ => false

/-- Zero or more `encrypted_chunk` events followed by exactly one terminal
event and nothing after it. -/
def chunksThenTerminal : List SSEEvent → Bool
  | .encryptedChunk _ :: rest => chunksThenTerminal rest
  | [e] => isTerminalEv e
  | _ => false

/-- The claimed stream shape: `conversation_start` exactly when required,
then chunks, then exactly one terminal event. -/
def sseShape (needStart : Bool) (evs : List SSEEvent) : Bool :=
  if needStart then
    match evs with
    | .conversationStart :: rest => chunksThenTerminal rest
    | _ => false
  else chunksThenTerminal evs

/-- Scans the trace: true iff no `encrypted_done` event occurs before the
persistence write has completed. -/
def persistedBeforeDone : List TraceItem → Bool
  | [] => true
  | .persisted _ :: _ => true
  | .ev (.encryptedDone _) :: _ => false
  | _ :: t => persistedBeforeDone t

theorem eventsOf_nil : eventsOf [] = [] := rfl

theorem eventsOf_ev_cons (e : SSEEvent) (t : List TraceItem) :
    eventsOf (.ev e :: t) = e :: eventsOf t := by
  simp [eventsOf, List.filterMap_cons]

theorem eventsOf_persisted_cons (c : String) (t : List TraceItem) :
    eventsOf (.persisted c :: t) = eventsOf t := by
  simp [eventsOf, List.filterMap_cons]

theorem eventsOf_append (a b : List TraceItem) :
    eventsOf (a ++ b) = eventsOf a ++ eventsOf b :=
  List.filterMap_append a b _

theorem eventsOf_map_chunks {α : Type} (l : List α) (g : α → String) :
    eventsOf (l.map (fun a => TraceItem.ev (.encryptedChunk (g a))))
      = l.map (fun a => SSEEvent.encryptedChunk (g a)) := by
  induction l with
  | nil => rfl
  | cons a t ih =>
    simp only [List.map_cons, eventsOf_ev_cons]
    rw [ih]

theorem chunksThenTerminal_map_chunks {α : Type} (l : List α) (g : α → String)
    (evs : List SSEEvent) :
    chunksThenTerminal (l.map (fun a => SSEEvent.encryptedChunk (g a)) ++ evs)
      = chunksThenTerminal evs := by
  induction l with
  | nil => rfl
  | cons a t ih =>
    simp only [List.map_cons, List.cons_append, chunksThenTerminal]
    exact ih

theorem pbd_map_chunks {α : Type} (l : List α) (g : α → String) (rest : List TraceItem) :
    persistedBeforeDone (l.map (fun a => TraceItem.ev (.encryptedChunk (g a))) ++ rest)
      = persistedBeforeDone rest := by
  induction l with
  | nil => rfl
  | cons a t ih =>
    simp only [List.map_cons, List.cons_append, persistedBeforeDone]
    exact ih

theorem chunksThenTerminal_sseTail (key cid : String) (es : Bool) (o : ChatOracle)
    (nonces : Nat → List Byte) :
    chunksThenTerminal (eventsOf (sseTail key cid es o nonces)) = true := by
  unfold sseTail sseChunkEvents
  cases es with
  | true =>
    by_cases hsave : o.saveRaises <;>
      simp [hsave, eventsOf_append, eventsOf_ev_cons, eventsOf_persisted_cons,
        eventsOf_nil, chunksThenTerminal, isTerminalEv]
  | false =>
    by_cases hsave : o.saveRaises <;>
      simp [hsave, eventsOf_append, eventsOf_ev_cons, eventsOf_persisted_cons,
        eventsOf_nil, eventsOf_map_chunks, chunksThenTerminal_map_chunks,
        chunksThenTerminal, isTerminalEv]

theorem pbd_sseTail (key cid : String) (es : Bool) (o : ChatOracle)
    (nonces : Nat → List Byte) :
    persistedBeforeDone (sseTail key cid es o nonces) = true := by
  unfold sseTail sseChunkEvents
  cases es with
  | true =>
    by_cases hsave : o.saveRaises <;> simp [hsave, persistedBeforeDone]
  | false =>
    by_cases hsave : o.saveRaises <;> simp [hsave, pbd_map_chunks, persistedBeforeDone]

/-- C1: every run of the SSE stream generator emits a `conversation_start`
event exactly when no conversation id was supplied, then zero or more
`encrypted_chunk` events, then exactly one terminal event (`encrypted_done`
or `error`, never both, nothing after it); and whenever `encrypted_done` is
emitted, the persistence of the user+ai turn pair completed earlier in the
trace. -/
theorem c1_sse_event_ordering (message key : String) (conversation_id : Option String)
    (enable_search : Bool) (o : ChatOracle) (nonces : Nat → List Byte)
    (hcid : conversation_id ≠ some "") :
    sseShape conversation_id.isNone
        (eventsOf (createSseStream message key conversation_id enable_search o nonces))
      = true
    ∧ persistedBeforeDone
        (createSseStream message key conversation_id enable_search o nonces) = true := by
  cases conversation_id with
  | none =>
    unfold createSseStream
    simp only [Option.getD, ne_eq, not_true_eq_false, if_false]
    constructor
    · simp [sseShape, eventsOf_ev_cons, chunksThenTerminal_sseTail]
    · simp [persistedBeforeDone, pbd_sseTail]
  | some s =>
    have hs : s ≠ "" := fun h => hcid (by rw [h])
    unfold createSseStream
    simp only [Option.getD, Option.isNone]
    rw [if_pos hs]
    by_cases hg : o.getConvRaises
    · simp [hg, sseShape, eventsOf_ev_cons, eventsOf_nil, chunksThenTerminal, isTerminalEv,
        persistedBeforeDone]
    · simp [hg, sseShape, chunksThenTerminal_sseTail, pbd_sseTail]

/-- Witness for C1: a new-conversation non-grounded run with one chunk. -/
theorem c1_sse_event_ordering_witness :
    sseShape true (eventsOf (createSseStream "Hello" "k" none false
        ⟨false, ["Hi"], false, false, "", .anil, .anil, .anil, .anil, false, "t",
          false, "c1"⟩
        (fun _ => List.replicate 12 (0 : Byte)))) = true
    ∧ persistedBeforeDone (createSseStream "Hello" "k" none false
        ⟨false, ["Hi"], false, false, "", .anil, .anil, .anil, .anil, false, "t",
          false, "c1"⟩
        (fun _ => List.replicate 12 (0 : Byte))) = true :=
  c1_sse_event_ordering "Hello" "k" none false
    ⟨false, ["Hi"], false, false, "", .anil, .anil, .anil, .anil, false, "t",
      false, "c1"⟩
    (fun _ => List.replicate 12 (0 : Byte)) (by simp)

/-- Oracle for C7's counterexample: the upstream streaming call raises after
one chunk; history load and persistence succeed. -/
def c7Oracle : ChatOracle :=
  ⟨false, ["Hi"], true, false, "", .anil, .anil, .anil, .anil, false, "t", false, "c1"⟩

set_option maxRecDepth 1000000 in
/-- C7 counterexample: when the generation collaborator fails mid-stream, the
pipeline emits no `error` event at all — the failure is absorbed inside
`generate_response_stream`, surfaces as a normal encrypted chunk carrying the
fallback text, and the stream still persists and terminates with exactly one
`encrypted_done`; this contradicts the claim that a generation failure yields
a terminal unencrypted `error` event and no `encrypted_done`. -/
theorem c7_counterexample_generation_failure_reaches_done :
    (eventsOf (createSseStream "Hello" "k" none false c7Oracle
        (fun _ => List.replicate 12 (0 : Byte)))).any isErrorEv = false
    ∧ (eventsOf (createSseStream "Hello" "k" none false c7Oracle
        (fun _ => List.replicate 12 (0 : Byte)))).countP isDoneEv = 1
    ∧ SSEEvent.encryptedChunk (encrypt_data (chunkPayload genFallbackText) "k"
          (List.replicate 12 (0 : Byte)))
        ∈ eventsOf (createSseStream "Hello" "k" none false c7Oracle
            (fun _ => List.replicate 12 (0 : Byte))) := by
  refine ⟨by decide, by decide, by decide⟩

theorem map_chunks_none_match {α : Type} (l : List α) (g : α → String)
    (p : SSEEvent → Bool) (hp : ∀ s, p (SSEEvent.encryptedChunk s) = false) :
    (l.map (fun a => SSEEvent.encryptedChunk (g a))).any p = false
    ∧ (l.map (fun a => SSEEvent.encryptedChunk (g a))).countP p = 0 := by
  induction l with
  | nil => simp
  | cons a t ih =>
    simp only [List.map_cons, List.any_cons, List.countP_cons, hp, ih.1, ih.2]
    simp

theorem mem_enumFrom_last (x : String) (l : List String) :
    ∀ n, (n + l.length, x) ∈ List.enumFrom n (l ++ [x]) := by
  induction l with
  | nil => intro n; simp [List.enumFrom]
  | cons a t ih =>
    intro n
    simp only [List.cons_append, List.enumFrom, List.length_cons, List.mem_cons]
    right
    have := ih (n + 1)
    rw [show n + (t.length + 1) = n + 1 + t.length from by omega]
    exact this

theorem mem_enum_last (x : String) (l : List String) :
    (l.length, x) ∈ (l ++ [x]).enum := by
  have := mem_enumFrom_last x l 0
  simpa [List.enum] using this

theorem getLast?_append_singleton (a b : List SSEEvent) (e : SSEEvent) :
    (a ++ (b ++ [e])).getLast? = some e := by
  rw [← List.append_assoc]
  exact List.getLast?_concat _

theorem eventsOf_sseTail (key cid : String) (es : Bool) (o : ChatOracle)
    (nonces : Nat → List Byte) :
    eventsOf (sseTail key cid es o nonces)
      = eventsOf (sseChunkEvents key es o nonces)
        ++ (if o.saveRaises then [SSEEvent.errorEvent sseErrorMsg]
            else [SSEEvent.encryptedDone (encrypt_data
                (finalDoneData cid o (sseGroundedFlag es o)) key
                (nonces (sseNumChunks es o)))]) := by
  unfold sseTail
  rw [eventsOf_append]
  by_cases hs : o.saveRaises <;>
    simp [hs, eventsOf_ev_cons, eventsOf_persisted_cons, eventsOf_nil]

theorem eventsOf_sseChunkEvents (key : String) (es : Bool) (o : ChatOracle)
    (nonces : Nat → List Byte) :
    eventsOf (sseChunkEvents key es o nonces)
      = if es then
          [SSEEvent.encryptedChunk (encrypt_data
            (chunkPayload (generate_response_with_grounding o).1) key (nonces 0))]
        else
          (generate_response_stream o).enum.map
            (fun p : Nat × String =>
              SSEEvent.encryptedChunk (encrypt_data (chunkPayload p.2) key (nonces p.1))) := by
  unfold sseChunkEvents
  by_cases hes : es <;>
    simp [hes, eventsOf_ev_cons, eventsOf_nil, eventsOf_map_chunks]

theorem sseChunkEvents_only_chunks (key : String) (es : Bool) (o : ChatOracle)
    (nonces : Nat → List Byte) :
    (eventsOf (sseChunkEvents key es o nonces)).any isErrorEv = false
    ∧ (eventsOf (sseChunkEvents key es o nonces)).any isDoneEv = false
    ∧ (eventsOf (sseChunkEvents key es o nonces)).countP isErrorEv = 0
    ∧ (eventsOf (sseChunkEvents key es o nonces)).countP isDoneEv = 0 := by
  rw [eventsOf_sseChunkEvents]
  by_cases hes : es
  · simp [hes, isErrorEv, isDoneEv]
  · rw [if_neg hes]
    have h1 := map_chunks_none_match ((generate_response_stream o).enum)
      (fun p : Nat × String => encrypt_data (chunkPayload p.2) key (nonces p.1))
      isErrorEv (fun _ => rfl)
    have h2 := map_chunks_none_match ((generate_response_stream o).enum)
      (fun p : Nat × String => encrypt_data (chunkPayload p.2) key (nonces p.1))
      isDoneEv (fun _ => rfl)
    exact ⟨h1.1, h2.1, h1.2, h2.2⟩

/-- C7 (amended): failures of the generation collaborator are absorbed inside
the generation service, which yields its fallback text as a normal encrypted
chunk; the stream then persists the turns and terminates with exactly one
`encrypted_done` and no `error` event. The single unencrypted terminal
`error` event (with no `encrypted_done`) is produced only by exceptions that
escape into the pipeline itself, such as a persistence-write failure. -/
theorem c7_stream_error_only_for_pipeline_failures (message key : String)
    (conversation_id : Option String) (enable_search : Bool) (o : ChatOracle)
    (nonces : Nat → List Byte) (hget : o.getConvRaises = false) :
    (o.saveRaises = false →
      (eventsOf (createSseStream message key conversation_id enable_search o nonces)).any
          isErrorEv = false
      ∧ (eventsOf (createSseStream message key conversation_id enable_search o nonces)).countP
          isDoneEv = 1)
    ∧ (enable_search = false → o.streamRaises = true →
      SSEEvent.encryptedChunk (encrypt_data (chunkPayload genFallbackText) key
          (nonces o.streamChunks.length))
        ∈ eventsOf (createSseStream message key conversation_id enable_search o nonces))
    ∧ (o.saveRaises = true →
      (eventsOf (createSseStream message key conversation_id enable_search o nonces)).countP
          isErrorEv = 1
      ∧ (eventsOf (createSseStream message key conversation_id enable_search o nonces)).any
          isDoneEv = false
      ∧ (eventsOf (createSseStream message key conversation_id enable_search o nonces)).getLast?
          = some (.errorEvent sseErrorMsg)) := by
  have htrace : createSseStream message key conversation_id enable_search o nonces
      = (if conversation_id.getD "" ≠ "" then ([] : List TraceItem)
         else [.ev .conversationStart])
        ++ sseTail key
            (if conversation_id.getD "" ≠ "" then conversation_id.getD ""
             else o.newConvId) enable_search o nonces := by
    unfold createSseStream
    by_cases hc : conversation_id.getD "" ≠ ""
    · simp [hc, hget]
    · simp [hc]
  have hchunks := sseChunkEvents_only_chunks key enable_search o nonces
  refine ⟨?_, ?_, ?_⟩
  · intro hsave
    rw [htrace, eventsOf_append, eventsOf_sseTail, hsave,
      if_neg (show ¬ (false = true) by simp)]
    constructor
    · rw [List.any_append, List.any_append, hchunks.1]
      by_cases hc : conversation_id.getD "" ≠ "" <;>
        simp [hc, eventsOf_ev_cons, eventsOf_nil, isErrorEv]
    · rw [List.countP_append, List.countP_append, hchunks.2.2.2]
      by_cases hc : conversation_id.getD "" ≠ "" <;>
        simp [hc, eventsOf_ev_cons, eventsOf_nil, isDoneEv, List.countP_cons]
  · intro hes hraise
    subst hes
    rw [htrace, eventsOf_append, eventsOf_sseTail, eventsOf_sseChunkEvents,
      if_neg (show ¬ (false = true) by simp)]
    have hmem0 : (o.streamChunks.length, genFallbackText)
        ∈ (generate_response_stream o).enum := by
      unfold generate_response_stream
      rw [hraise]
      exact mem_enum_last genFallbackText o.streamChunks
    have hmem1 : SSEEvent.encryptedChunk
        (encrypt_data (chunkPayload genFallbackText) key (nonces o.streamChunks.length))
        ∈ (generate_response_stream o).enum.map
            (fun p : Nat × String =>
              SSEEvent.encryptedChunk (encrypt_data (chunkPayload p.2) key (nonces p.1))) :=
      List.mem_map.mpr ⟨(o.streamChunks.length, genFallbackText), hmem0, rfl⟩
    exact List.mem_append.mpr (Or.inr (List.mem_append.mpr (Or.inl hmem1)))
  · intro hsave
    rw [htrace, eventsOf_append, eventsOf_sseTail, hsave,
      if_pos (show (true = true) from rfl)]
    refine ⟨?_, ?_, ?_⟩
    · rw [List.countP_append, List.countP_append, hchunks.2.2.1]
      by_cases hc : conversation_id.getD "" ≠ "" <;>
        simp [hc, eventsOf_ev_cons, eventsOf_nil, isErrorEv, List.countP_cons]
    · rw [List.any_append, List.any_append, hchunks.2.1]
      by_cases hc : conversation_id.getD "" ≠ "" <;>
        simp [hc, eventsOf_ev_cons, eventsOf_nil, isDoneEv]
    · exact getLast?_append_singleton _ _ _

/-- Oracle for C7's witness part about persistence failure: the save raises. -/
def c7OracleSaveFail : ChatOracle :=
  ⟨false, ["Hi"], false, false, "", .anil, .anil, .anil, .anil, false, "t", true, "c1"⟩

/-- Witness for C7's amended theorem: a run with a mid-stream generation
failure ending in `encrypted_done`, and a run with a persistence failure
ending in the single terminal `error` event. -/
theorem c7_stream_error_only_for_pipeline_failures_witness :
    ((eventsOf (createSseStream "Hello" "k" none false c7Oracle
        (fun _ => List.replicate 12 (0 : Byte)))).any isErrorEv = false
      ∧ (eventsOf (createSseStream "Hello" "k" none false c7Oracle
          (fun _ => List.replicate 12 (0 : Byte)))).countP isDoneEv = 1)
    ∧ SSEEvent.encryptedChunk (encrypt_data (chunkPayload genFallbackText) "k"
          ((fun _ => List.replicate 12 (0 : Byte)) (c7Oracle.streamChunks.length)))
        ∈ eventsOf (createSseStream "Hello" "k" none false c7Oracle
            (fun _ => List.replicate 12 (0 : Byte)))
    ∧ ((eventsOf (createSseStream "Hello" "k" none false c7OracleSaveFail
          (fun _ => List.replicate 12 (0 : Byte)))).countP isErrorEv = 1
      ∧ (eventsOf (createSseStream "Hello" "k" none false c7OracleSaveFail
          (fun _ => List.replicate 12 (0 : Byte)))).any isDoneEv = false
      ∧ (eventsOf (createSseStream "Hello" "k" none false c7OracleSaveFail
          (fun _ => List.replicate 12 (0 : Byte)))).getLast?
          = some (.errorEvent sseErrorMsg)) :=
  ⟨(c7_stream_error_only_for_pipeline_failures "Hello" "k" none false c7Oracle
      (fun _ => List.replicate 12 (0 : Byte)) rfl).1 rfl,
   (c7_stream_error_only_for_pipeline_failures "Hello" "k" none false c7Oracle
      (fun _ => List.replicate 12 (0 : Byte)) rfl).2.1 rfl rfl,
   (c7_stream_error_only_for_pipeline_failures "Hello" "k" none false c7OracleSaveFail
      (fun _ => List.replicate 12 (0 : Byte)) rfl).2.2 rfl⟩
